import Mathlib

/-!
Verification of the dataset scan pipeline in
`src/cpp/src/arrow/dataset/scanner_internal.h`: the batch filter stage
(`FilterRecordBatch`), the batch projection stage (`ProjectRecordBatch`),
the `FilterAndProjectScanTask` decorator, and the scan-task materializer
(`GetScanTaskIterator`).

The file is a shallow embedding.  Code that lives in the source file is
translated statement by statement.  The external collaborators
(expression evaluator, record-batch projector, key-value partitioning
helper, the iterator combinators from the utility library) are not part
of the source file; their definitions below are modelled from the spec,
each marked `Modelled from the spec:` in its doc comment.  Lazy pull-based
iterators are represented by the finite list of the elements a consumer
obtains by pulling to completion, with the spec's rule that a yielded
failure terminates the sequence.
-/

set_option autoImplicit false

namespace ArrowDataset

/-- Modelled from the spec: an untyped value domain for the cells of a
columnar batch; rich enough for the partition constants and equality
predicates the claims mention. -/
inductive Value where
  | intV (n : Int)
  | strV (s : String)
  | boolV (b : Bool)
  | nullV
  deriving DecidableEq, Repr

/-- A row is an association list from column names to values. -/
abbrev Row := List (String × Value)

/-- First value bound to column `c` in an association list, if any. -/
def lookupCol (r : Row) (c : String) : Option Value :=
  (r.find? (fun kv => kv.1 = c)).map (fun kv => kv.2)

/-- Modelled from the spec: a columnar batch is an immutable chunk of
same-length typed columns sharing one schema; we keep the schema (column
names) and the rows. -/
structure RecordBatch where
  schema : List String
  rows : List Row
  deriving DecidableEq, Repr

/-- Modelled from the spec: an immutable predicate expression supporting
boolean evaluation and specialization.  Conjunctions of column equalities
cover the partition predicates and filters the claims use. -/
inductive Expression where
  | tru
  | fls
  | eqCol (col : String) (v : Value)
  | andE (a b : Expression)
  deriving DecidableEq, Repr

/-- Column names an expression refers to. -/
def Expression.columns : Expression → List String
  | .tru => []
  | .fls => []
  | .eqCol c _ => [c]
  | .andE a b => a.columns ++ b.columns

/-- Row-wise boolean evaluation of an expression. -/
def evalRow : Expression → Row → Bool
  | .tru, _ => true
  | .fls, _ => false
  | .eqCol c v, r => decide (lookupCol r c = some v)
  | .andE a b, r => evalRow a r && evalRow b r

/-- Key/value bindings appearing as equality conjuncts of an expression
(the partition predicate's key/value bindings). -/
def Expression.bindings : Expression → List (String × Value)
  | .tru => []
  | .fls => []
  | .eqCol c v => [(c, v)]
  | .andE a b => a.bindings ++ b.bindings

/-- Substitute known-true bindings into an expression: an equality on a
bound column folds to `tru`/`fls`. -/
def Expression.assumeWith (binds : List (String × Value)) : Expression → Expression
  | .tru => .tru
  | .fls => .fls
  | .eqCol c v =>
    match lookupCol binds c with
    | some w => if v = w then .tru else .fls
    | none => .eqCol c v
  | .andE a b => .andE (a.assumeWith binds) (b.assumeWith binds)

/-- Modelled from the spec: `Expression::Assume` specializes a predicate
by assuming another predicate holds, folding in its known-true
sub-conditions.  The partition argument is a possibly-null shared
pointer; per the spec, with no partition predicate the specialization is
the identity. -/
def Expression.Assume (e : Expression) : Option Expression → Expression
  | none => e
  | some p => e.assumeWith p.bindings

/-- Modelled from the spec: the evaluator's `Evaluate` produces a
selection value (a boolean mask, one entry per row) by row-wise
evaluation; it fails when the expression refers to a column the batch's
schema lacks (the spec's type-mismatch / invalid-expression failure
class). -/
def ExpressionEvaluator.Evaluate (filter : Expression) (b : RecordBatch) :
    Except String (List Bool) :=
  if filter.columns.all (fun c => b.schema.contains c) then
    .ok (b.rows.map (evalRow filter))
  else
    .error "evaluate: field not found in schema"

/-- Modelled from the spec: the evaluator's `Filter` applies a selection
mask to a batch, keeping exactly the rows whose mask entry is true. -/
def ExpressionEvaluator.Filter (selection : List Bool) (b : RecordBatch) : RecordBatch :=
  { schema := b.schema
    rows := (b.rows.zip selection).filterMap (fun rs => if rs.2 then some rs.1 else none) }

/-- Translated from the lambda inside `FilterRecordBatch` (lines 35-38):
evaluate the predicate against the batch to obtain a selection, then
apply the selection to the batch. -/
def filterOne (filter : Expression) (b : RecordBatch) : Except String RecordBatch :=
  (ExpressionEvaluator.Evaluate filter b).map
    (fun selection => ExpressionEvaluator.Filter selection b)

/-- Translated from `FilterRecordBatch` (lines 31-41), which wraps the
input in `MakeMaybeMapIterator`.  The combinator is modelled from the
spec: each pulled input batch is mapped through `filterOne`; a failure is
yielded and the sequence terminates, so later input batches are never
pulled. -/
def FilterRecordBatch (filter : Expression) : List RecordBatch → List (Except String RecordBatch)
  | [] => []
  | b :: bs =>
    match filterOne filter b with
    | .ok out => .ok out :: FilterRecordBatch filter bs
    | .error e => [.error e]

/-- Modelled from the spec: the projector is a mutable, non-thread-safe
helper mapping an input batch onto a target schema, inserting configured
default values for columns absent from the input.  `scratch` models the
internal resize buffer for missing-column materialization, the state
whose resizing is not thread safe. -/
structure RecordBatchProjector where
  toSchema : List String
  defaults : List (String × Value)
  scratch : Nat
  deriving DecidableEq, Repr

/-- Reshape one row to the target schema: a column present in the input
schema keeps the row's value, a missing column receives the configured
default (null when none is configured). -/
def RecordBatchProjector.projectRow (p : RecordBatchProjector) (schema : List String)
    (r : Row) : Row :=
  p.toSchema.map (fun c =>
    (c, if schema.contains c then (lookupCol r c).getD Value.nullV
        else (lookupCol p.defaults c).getD Value.nullV))

/-- Modelled from the spec: `RecordBatchProjector::Project` reshapes a
batch to the target schema and, as a side effect on the projector it is
called on, grows the missing-column scratch buffer to the batch's row
count.  The reshape failure case (type mismatch) does not arise in this
value model, so the result is always a batch. -/
def RecordBatchProjector.Project (p : RecordBatchProjector) (b : RecordBatch) :
    RecordBatch × RecordBatchProjector :=
  ({ schema := p.toSchema, rows := b.rows.map (p.projectRow b.schema) },
   { p with scratch := max p.scratch b.rows.length })

/-- Update one default binding, overriding an existing binding for the
column or appending a new one. -/
def setDefault (d : List (String × Value)) (c : String) (v : Value) :
    List (String × Value) :=
  if d.any (fun kv => kv.1 = c) then
    d.map (fun kv => if kv.1 = c then (c, v) else kv)
  else d ++ [(c, v)]

/-- Modelled from the spec:
`KeyValuePartitioning::SetDefaultValuesFromKeys` updates the projector's
default values from the partition predicate's key/value bindings, so that
partition columns materialize as constants.  The C++ mutates the
projector through a pointer; here the updated projector is returned. -/
def KeyValuePartitioning.SetDefaultValuesFromKeys (partition : Expression)
    (projector : RecordBatchProjector) : RecordBatchProjector :=
  { projector with
    defaults := partition.bindings.foldl (fun d kv => setDefault d kv.1 kv.2) projector.defaults }

/-- Translated from `ProjectRecordBatch` (lines 43-55), which wraps the
input in `MakeMaybeMapIterator`; the combinator itself is modelled from
the spec (a pulled error is yielded and terminates the sequence).  For
each pulled ok batch the lambda body runs: `local_projector` is
copy-constructed from `*projector` (line 51) and `Project` is invoked on
the copy, so the write to the copy's scratch state is dropped; the
pointed-to projector is only ever read.  Returns the yielded elements,
the final value of the pointed-to projector, and how many copies of the
projector were made. -/
def ProjectRecordBatch (projector : RecordBatchProjector) :
    List (Except String RecordBatch) →
      List (Except String RecordBatch) × RecordBatchProjector × Nat
  | [] => ([], projector, 0)
  | .error e :: _ => ([.error e], projector, 0)
  | .ok b :: rest =>
    let local_projector := projector
    let projected := local_projector.Project b
    let tail := ProjectRecordBatch projector rest
    (.ok projected.1 :: tail.1, tail.2.1, tail.2.2 + 1)

instance {ε α : Type} [DecidableEq ε] [DecidableEq α] : DecidableEq (Except ε α) := fun a b =>
  match a, b with
  | .ok x, .ok y =>
    if h : x = y then .isTrue (by rw [h]) else .isFalse (by intro hc; cases hc; exact h rfl)
  | .error x, .error y =>
    if h : x = y then .isTrue (by rw [h]) else .isFalse (by intro hc; cases hc; exact h rfl)
  | .ok _, .error _ => .isFalse (by intro hc; cases hc)
  | .error _, .ok _ => .isFalse (by intro hc; cases hc)

/-- Modelled from the spec: the scan context is shared and immutable; it
holds the memory allocator.  The allocator has no observable effect in
this value model, so it is an opaque id. -/
structure ScanContext where
  pool : Nat
  deriving DecidableEq, Repr

/-- Modelled from the spec: scan options are shared and immutable for the
scan's duration; they hold the global filter predicate and the projector
template (the evaluator handle is behaviorally the `ExpressionEvaluator`
functions above and carries no data). -/
structure ScanOptions where
  filter : Expression
  projector : RecordBatchProjector
  deriving DecidableEq, Repr

/-- Modelled from the spec: an inner scan task, whose `Execute` yields a
lazy sequence of raw columnar batches or fails to start; it carries
shared references to scan options and context. -/
structure ScanTask where
  options : ScanOptions
  context : ScanContext
  execute : Except String (List RecordBatch)
  deriving DecidableEq, Repr

/-- State of a `FilterAndProjectScanTask`: the base-class options and
context, the inner task, the partition predicate, the lazily computed
specialized filter (null until `Execute`), and the private projector. -/
structure FilterAndProjectScanTask where
  options_ : ScanOptions
  context_ : ScanContext
  task_ : ScanTask
  partition_ : Option Expression
  filter_ : Option Expression
  projector_ : RecordBatchProjector
  deriving DecidableEq, Repr

/-- Translated from the `FilterAndProjectScanTask` constructor
(lines 59-65): the base `ScanTask` state comes from the inner task,
`filter_` starts null, and `projector_` is copy-initialized from the
options' projector template. -/
def FilterAndProjectScanTask.make (task : ScanTask) (partition : Option Expression) :
    FilterAndProjectScanTask :=
  { options_ := task.options
    context_ := task.context
    task_ := task
    partition_ := partition
    filter_ := none
    projector_ := task.options.projector }

/-- Operations `Execute` performs, in the order the source statements run
them: executing the inner task, calling `Assume`, building the filter
stage, updating projector defaults, building the projection stage. -/
inductive ExecEvent where
  | innerExecute
  | assumeCall
  | buildFilterStage
  | setDefaults
  | buildProjectStage
  deriving DecidableEq, Repr

/-- Everything observable about one run of `Execute` followed by pulling
the returned sequence to completion: the yielded elements (or the
start-up failure), the task's state afterwards, the number of projector
copies the projection stage made, and the trace of operations. -/
structure ExecOutcome where
  result : Except String (List (Except String RecordBatch))
  state : FilterAndProjectScanTask
  cloneCount : Nat
  trace : List ExecEvent
  deriving DecidableEq, Repr

/-- Translated from `FilterAndProjectScanTask::Execute` (lines 67-79):
execute the inner task (propagating failure), compute the specialized
predicate `options()->filter->Assume(partition_)` and store it in
`filter_`, build the filter stage over the raw sequence with it, update
the private projector's defaults from the partition keys when a
partition predicate is present, and build the projection stage over the
filtered sequence with the private projector. -/
def FilterAndProjectScanTask.Execute (t : FilterAndProjectScanTask) : ExecOutcome :=
  match t.task_.execute with
  | .error e => ⟨.error e, t, 0, [.innerExecute]⟩
  | .ok raw =>
    let specialized := t.options_.filter.Assume t.partition_
    let t1 : FilterAndProjectScanTask := { t with filter_ := some specialized }
    let filtered := FilterRecordBatch specialized raw
    let afterDefaults :
        FilterAndProjectScanTask × List ExecEvent :=
      match t1.partition_ with
      | some p =>
        ({ t1 with projector_ := KeyValuePartitioning.SetDefaultValuesFromKeys p t1.projector_ },
         [ExecEvent.setDefaults])
      | none => (t1, [])
    let t2 := afterDefaults.1
    let projected := ProjectRecordBatch t2.projector_ filtered
    ⟨.ok projected.1,
     { t2 with projector_ := projected.2.1 },
     projected.2.2,
     [ExecEvent.innerExecute, ExecEvent.assumeCall, ExecEvent.buildFilterStage]
       ++ afterDefaults.2 ++ [ExecEvent.buildProjectStage]⟩

/-- Modelled from the spec: a data fragment owns a partition predicate
(null when absent) and a `Scan` operation producing its raw scan tasks
or failing; concrete fragments are external, so the scan outcome is
data. -/
structure Fragment where
  partition_expression : Option Expression
  scanResult : Except String (List ScanTask)
  deriving DecidableEq, Repr

/-- The fragment's `Scan(options, context)` call. -/
def Fragment.Scan (f : Fragment) (_options : ScanOptions) (_context : ScanContext) :
    Except String (List ScanTask) :=
  f.scanResult

/-- In the `wrap_scan_task` lambda (lines 101-105) the captured
`partition` is moved into the constructor call; the lambda captures it by
value and is not `mutable`, so the captured variable is const and
`std::move` resolves to the shared-pointer copy constructor: the call
receives the value and the captured state keeps it.  Returns (value
passed to the constructor, captured state afterwards). -/
def sharedMoveFromConst (p : Option Expression) : Option Expression × Option Expression :=
  (p, p)

/-- Translated from `MakeMapIterator(wrap_scan_task, scan_task_it)`
(line 107) with the closure state explicit: each raw task is wrapped into
a `FilterAndProjectScanTask` carrying the fragment's partition
predicate, threading the captured `partition` through the calls.
Returns the wrapped tasks and the captured state after all calls. -/
def wrapScanTasks : Option Expression → List ScanTask →
    List FilterAndProjectScanTask × Option Expression
  | captured, [] => ([], captured)
  | captured, task :: rest =>
    let moved := sharedMoveFromConst captured
    let tail := wrapScanTasks moved.2 rest
    (FilterAndProjectScanTask.make task moved.1 :: tail.1, tail.2)

/-- The decorated tasks the materializer produces for one list of raw
tasks under one partition predicate. -/
def wrapTasks (partition : Option Expression) (tasks : List ScanTask) :
    List FilterAndProjectScanTask :=
  (wrapScanTasks partition tasks).1

/-- Translated from the `fn` lambda of `GetScanTaskIterator`
(lines 94-108): scan the fragment (propagating failure), read its
partition expression, and wrap every raw task. -/
def fragmentScanTasks (options : ScanOptions) (context : ScanContext) (fragment : Fragment) :
    Except String (List FilterAndProjectScanTask) :=
  match fragment.Scan options context with
  | .error e => .error e
  | .ok scan_task_it =>
    let partition := fragment.partition_expression
    .ok (wrapTasks partition scan_task_it)

/-- Modelled from the spec: `MakeFlattenIterator`'s pull loop over an
outer sequence of fragment results.  State is the current inner sequence
plus the remaining outer elements; pulling advances the inner sequence
first, a failed outer element is yielded as a single error element and
the loop continues with the next outer element. -/
def flattenRun (A : Type) : List A → List (Except String (List A)) → List (Except String A)
  | t :: ts, outer => .ok t :: flattenRun A ts outer
  | [], [] => []
  | [], .error e :: rest => .error e :: flattenRun A [] rest
  | [], .ok ts :: rest => flattenRun A ts rest
termination_by inner outer => (outer.length, inner.length)

/-- Follows the spec's words (flattening denotation): the per-fragment
contributions are concatenated in order; a successful fragment
contributes its decorated tasks in order, a failing fragment contributes
a single error element. -/
def flattenDenote (A : Type) (outer : List (Except String (List A))) : List (Except String A) :=
  (outer.map (fun r =>
    match r with
    | .ok ts => ts.map Except.ok
    | .error e => [Except.error e])).flatten

/-- Translated from `GetScanTaskIterator` (lines 90-115): map `fn` over
the fragments with `MakeMaybeMapIterator`, then flatten the two-level
sequence with `MakeFlattenIterator`. -/
def GetScanTaskIterator (fragments : List Fragment) (options : ScanOptions)
    (context : ScanContext) : List (Except String FilterAndProjectScanTask) :=
  flattenRun FilterAndProjectScanTask []
    (fragments.map (fragmentScanTasks options context))

/-- Number of ok batches a consumer pulls from a sequence before it ends
or yields its first error. -/
def okCount : List (Except String RecordBatch) → Nat
  | [] => 0
  | .error _ :: _ => 0
  | .ok _ :: rest => okCount rest + 1

/-- Denotation of the projection stage: each pulled ok batch is projected
with a fresh copy of the supplied projector (no state threads from one
batch to the next); an error is yielded and terminates the sequence. -/
def projectEachFresh (p : RecordBatchProjector) :
    List (Except String RecordBatch) → List (Except String RecordBatch)
  | [] => []
  | .error e :: _ => [.error e]
  | .ok b :: rest => .ok (p.Project b).1 :: projectEachFresh p rest

/- Concrete data for witnesses and counterexamples. -/

def exProjector : RecordBatchProjector :=
  { toSchema := ["region", "a"], defaults := [], scratch := 0 }

def exOptions : ScanOptions :=
  { filter := Expression.eqCol "region" (Value.strV "west"), projector := exProjector }

def exContext : ScanContext := { pool := 0 }

def exBatch1 : RecordBatch :=
  { schema := ["a"], rows := [[("a", Value.intV 1)], [("a", Value.intV 2)]] }

def exBatch2 : RecordBatch :=
  { schema := ["a"], rows := [[("a", Value.intV 3)]] }

def exBatchNoA : RecordBatch :=
  { schema := ["b"], rows := [[("b", Value.intV 7)]] }

def exInnerTask : ScanTask :=
  { options := exOptions, context := exContext, execute := .ok [exBatch1, exBatch2] }

def exWestPartition : Expression := Expression.eqCol "region" (Value.strV "west")

def exDecoratedTask : FilterAndProjectScanTask :=
  FilterAndProjectScanTask.make exInnerTask (some exWestPartition)

def exDecoratedTaskNoPartition : FilterAndProjectScanTask :=
  FilterAndProjectScanTask.make exInnerTask none

def exFailFragment : Fragment := { partition_expression := none, scanResult := .error "io error" }

def exOkFragment : Fragment :=
  { partition_expression := some exWestPartition, scanResult := .ok [exInnerTask] }

def exOkFragment2 : Fragment :=
  { partition_expression := none,
    scanResult := .ok [exInnerTask, exInnerTask, exInnerTask] }

def exOkFragment3 : Fragment :=
  { partition_expression := some exWestPartition, scanResult := .ok [exInnerTask, exInnerTask] }

/- Helper lemmas. -/

theorem zip_map_mask_eq_filter {A : Type} (f : A → Bool) (l : List A) :
    (l.zip (l.map f)).filterMap (fun rs => if rs.2 then some rs.1 else none) = l.filter f := by
  induction l with
  | nil => rfl
  | cons x xs ih =>
    cases hf : f x <;> simp [List.filter_cons, hf, ih]

theorem filterOne_ok_schema (filter : Expression) (b bb : RecordBatch)
    (h : filterOne filter b = .ok bb) : bb.schema = b.schema := by
  unfold filterOne at h
  cases he : ExpressionEvaluator.Evaluate filter b with
  | ok sel => rw [he] at h; cases h; rfl
  | error e => rw [he] at h; cases h

theorem FilterRecordBatch_ok_schema (filter : Expression) (raw : List RecordBatch)
    (o : Except String RecordBatch) (b : RecordBatch)
    (ho : o ∈ FilterRecordBatch filter raw) (hb : o = .ok b) :
    ∃ b0 ∈ raw, b.schema = b0.schema := by
  induction raw with
  | nil => simp [FilterRecordBatch] at ho
  | cons x xs ih =>
    rw [FilterRecordBatch] at ho
    cases hx : filterOne filter x with
    | ok out =>
      rw [hx] at ho
      rcases List.mem_cons.mp ho with h1 | h2
      · subst hb
        cases h1
        exact ⟨x, List.mem_cons_self x xs, filterOne_ok_schema filter x _ hx⟩
      · rcases ih h2 with ⟨b0, hb0, hs⟩
        exact ⟨b0, List.mem_cons_of_mem x hb0, hs⟩
    | error e =>
      rw [hx] at ho
      rcases List.mem_singleton.mp ho with rfl
      cases hb

theorem ProjectRecordBatch_ptr (p : RecordBatchProjector)
    (l : List (Except String RecordBatch)) : (ProjectRecordBatch p l).2.1 = p := by
  induction l with
  | nil => rfl
  | cons x rest ih => cases x <;> simp [ProjectRecordBatch, ih]

theorem ProjectRecordBatch_count (p : RecordBatchProjector)
    (l : List (Except String RecordBatch)) : (ProjectRecordBatch p l).2.2 = okCount l := by
  induction l with
  | nil => rfl
  | cons x rest ih => cases x <;> simp [ProjectRecordBatch, okCount, ih]

theorem ProjectRecordBatch_outs (p : RecordBatchProjector)
    (l : List (Except String RecordBatch)) : (ProjectRecordBatch p l).1 = projectEachFresh p l := by
  induction l with
  | nil => rfl
  | cons x rest ih => cases x <;> simp [ProjectRecordBatch, projectEachFresh, ih]

theorem projectEachFresh_ok_mem (p : RecordBatchProjector)
    (l : List (Except String RecordBatch)) (o : Except String RecordBatch) (b : RecordBatch)
    (ho : o ∈ projectEachFresh p l) (hb : o = .ok b) :
    ∃ bIn, Except.ok bIn ∈ l ∧ b = (p.Project bIn).1 := by
  induction l with
  | nil => simp [projectEachFresh] at ho
  | cons x rest ih =>
    cases x with
    | error e =>
      rw [projectEachFresh] at ho
      rcases List.mem_singleton.mp ho with rfl
      cases hb
    | ok bIn =>
      rw [projectEachFresh] at ho
      rcases List.mem_cons.mp ho with h1 | h2
      · subst hb
        cases h1
        exact ⟨bIn, List.mem_cons_self _ _, rfl⟩
      · rcases ih h2 with ⟨bIn2, hmem, hproj⟩
        exact ⟨bIn2, List.mem_cons_of_mem _ hmem, hproj⟩

/-- C2: for every input batch pulled through the batch filter stage whose
predicate evaluation succeeds, the yielded output batch contains exactly
the rows of that input batch for which the predicate evaluates true,
obtained by evaluating the predicate into a selection and applying the
selection to the batch. -/
theorem filter_stage_yields_exactly_predicate_true_rows (filter : Expression)
    (b : RecordBatch) (sel : List Bool)
    (h : ExpressionEvaluator.Evaluate filter b = .ok sel) :
    filterOne filter b
      = .ok { schema := b.schema, rows := b.rows.filter (fun r => evalRow filter r) }
    ∧ ∀ bs, FilterRecordBatch filter (b :: bs)
        = .ok { schema := b.schema, rows := b.rows.filter (fun r => evalRow filter r) }
            :: FilterRecordBatch filter bs := by
  have hone : filterOne filter b
      = .ok { schema := b.schema, rows := b.rows.filter (fun r => evalRow filter r) } := by
    unfold filterOne
    rw [h]
    have hsel : sel = b.rows.map (evalRow filter) := by
      unfold ExpressionEvaluator.Evaluate at h
      split at h
      · cases h; rfl
      · cases h
    subst hsel
    simp [Except.map, ExpressionEvaluator.Filter, zip_map_mask_eq_filter]
  refine ⟨hone, fun bs => ?_⟩
  rw [FilterRecordBatch, hone]

/-- C2 witness. -/
theorem filter_stage_yields_exactly_predicate_true_rows_witness :
    ExpressionEvaluator.Evaluate (Expression.eqCol "a" (Value.intV 1)) exBatch1
      = .ok [true, false]
    ∧ filterOne (Expression.eqCol "a" (Value.intV 1)) exBatch1
        = .ok { schema := exBatch1.schema,
                rows := exBatch1.rows.filter
                  (fun r => evalRow (Expression.eqCol "a" (Value.intV 1)) r) } :=
  ⟨by decide,
   (filter_stage_yields_exactly_predicate_true_rows
     (Expression.eqCol "a" (Value.intV 1)) exBatch1 [true, false] (by decide)).1⟩

/-- C8: when predicate evaluation fails for a pulled batch, the filter
stage yields that failure and the sequence terminates there: the failing
batch is neither skipped nor retried, and the input batches after it are
never pulled (the output does not depend on them). -/
theorem filter_stage_failure_terminates_sequence (filter : Expression)
    (pre : List RecordBatch) (b : RecordBatch) (post : List RecordBatch) (e : String)
    (hpre : ∀ x ∈ pre, (filterOne filter x).isOk)
    (hb : filterOne filter b = .error e) :
    FilterRecordBatch filter (pre ++ b :: post)
      = pre.map (fun x => filterOne filter x) ++ [.error e]
    ∧ FilterRecordBatch filter (pre ++ b :: post) = FilterRecordBatch filter (pre ++ [b]) := by
  induction pre with
  | nil =>
    constructor
    · simp [FilterRecordBatch, hb]
    · simp only [List.nil_append]
      rw [FilterRecordBatch, FilterRecordBatch, hb]
  | cons x xs ih =>
    have hx : (filterOne filter x).isOk := hpre x (List.mem_cons_self x xs)
    cases hxe : filterOne filter x with
    | error e2 => rw [hxe] at hx; cases hx
    | ok y =>
      have ihh := ih (fun z hz => hpre z (List.mem_cons_of_mem x hz))
      constructor
      · rw [List.cons_append, FilterRecordBatch, hxe, ihh.1]
        simp [hxe]
      · rw [List.cons_append, FilterRecordBatch, hxe, ihh.2,
            List.cons_append, FilterRecordBatch, hxe]

/-- C8 witness. -/
theorem filter_stage_failure_terminates_sequence_witness :
    (∀ x ∈ [exBatch1], (filterOne (Expression.eqCol "a" (Value.intV 1)) x).isOk)
    ∧ filterOne (Expression.eqCol "a" (Value.intV 1)) exBatchNoA
        = .error "evaluate: field not found in schema"
    ∧ FilterRecordBatch (Expression.eqCol "a" (Value.intV 1))
        ([exBatch1] ++ exBatchNoA :: [exBatch2])
      = [exBatch1].map (fun x => filterOne (Expression.eqCol "a" (Value.intV 1)) x)
          ++ [.error "evaluate: field not found in schema"] :=
  ⟨by decide, by decide,
   (filter_stage_failure_terminates_sequence (Expression.eqCol "a" (Value.intV 1))
     [exBatch1] exBatchNoA [exBatch2] "evaluate: field not found in schema"
     (by decide) (by decide)).1⟩

/-- C3 counterexample: the claim says the supplied projector is cloned
exactly once per constructed projection-stage sequence.  On a sequence of
two pulled batches the stage makes two copies of the projector, not
one. -/
theorem projector_clone_per_batch_counterexample :
    (ProjectRecordBatch exProjector [Except.ok exBatch1, Except.ok exBatch2]).2.2 = 2
    ∧ ¬ (ProjectRecordBatch exProjector [Except.ok exBatch1, Except.ok exBatch2]).2.2 = 1 := by
  decide

/-- C3 amended: the projection stage clones the supplied projector once
per pulled ok batch (not once per constructed sequence): pulling the
sequence makes exactly one clone per ok batch pulled, every batch is
projected with its own fresh clone of the supplied projector, and the
supplied projector itself is never modified — so scratch state is still
exclusive to this sequence's execution. -/
theorem projector_cloned_once_per_pulled_batch (p : RecordBatchProjector)
    (l : List (Except String RecordBatch)) :
    (ProjectRecordBatch p l).2.2 = okCount l
    ∧ (ProjectRecordBatch p l).1 = projectEachFresh p l
    ∧ (ProjectRecordBatch p l).2.1 = p :=
  ⟨ProjectRecordBatch_count p l, ProjectRecordBatch_outs p l, ProjectRecordBatch_ptr p l⟩

/-- C9: over one `Execute` and however many batches are pulled through
the projected sequence, the scan options (holding the projector
template) are not mutated, and the task's stored projector member is
left unchanged by projection itself: it equals the projector member the
task ends with when its inner task yields no batches at all. -/
theorem projection_never_mutates_options_or_task_projector
    (t : FilterAndProjectScanTask) (raw : List RecordBatch)
    (h : t.task_.execute = .ok raw) :
    (t.Execute).state.options_ = t.options_
    ∧ (t.Execute).state.options_.projector = t.options_.projector
    ∧ (t.Execute).state.projector_
        = (FilterAndProjectScanTask.Execute
            { t with task_ := { t.task_ with execute := .ok [] } }).state.projector_ := by
  cases hp : t.partition_ with
  | none =>
    simp [FilterAndProjectScanTask.Execute, h, hp, ProjectRecordBatch_ptr]
  | some p =>
    simp [FilterAndProjectScanTask.Execute, h, hp, ProjectRecordBatch_ptr]

/-- C9 witness. -/
theorem projection_never_mutates_options_or_task_projector_witness :
    exDecoratedTask.task_.execute = .ok [exBatch1, exBatch2]
    ∧ (exDecoratedTask.Execute).state.options_ = exDecoratedTask.options_
    ∧ (exDecoratedTask.Execute).state.options_.projector = exDecoratedTask.options_.projector
    ∧ (exDecoratedTask.Execute).state.projector_
        = (FilterAndProjectScanTask.Execute
            { exDecoratedTask with
              task_ := { exDecoratedTask.task_ with execute := .ok [] } }).state.projector_ := by
  have hmain := projection_never_mutates_options_or_task_projector
    exDecoratedTask [exBatch1, exBatch2] (by decide)
  exact ⟨by decide, hmain.1, hmain.2.1, hmain.2.2⟩

/-- C1: `Execute` first runs the inner task, computes the specialized
predicate exactly once per execution as the options' global filter with
the partition predicate assumed, builds the filter stage over the raw
sequence with that specialized predicate, and only afterwards builds the
projection stage over the filtered sequence — so every batch is filtered
before it is projected. -/
theorem execute_specializes_once_and_filters_before_project
    (t : FilterAndProjectScanTask) (raw : List RecordBatch)
    (h : t.task_.execute = .ok raw) :
    (t.Execute).trace.count ExecEvent.assumeCall = 1
    ∧ (t.Execute).trace.take 3
        = [ExecEvent.innerExecute, ExecEvent.assumeCall, ExecEvent.buildFilterStage]
    ∧ (t.Execute).trace.getLast? = some ExecEvent.buildProjectStage
    ∧ (t.Execute).state.filter_ = some (t.options_.filter.Assume t.partition_)
    ∧ ∃ proj, (t.Execute).result
        = .ok (ProjectRecordBatch proj
            (FilterRecordBatch (t.options_.filter.Assume t.partition_) raw)).1 := by
  cases hp : t.partition_ with
  | none =>
    refine ⟨?_, ?_, ?_, ?_, ⟨t.projector_, ?_⟩⟩ <;>
      simp [FilterAndProjectScanTask.Execute, h, hp]
  | some p =>
    refine ⟨?_, ?_, ?_, ?_,
      ⟨KeyValuePartitioning.SetDefaultValuesFromKeys p t.projector_, ?_⟩⟩ <;>
      simp [FilterAndProjectScanTask.Execute, h, hp]

/-- C1 witness. -/
theorem execute_specializes_once_and_filters_before_project_witness :
    exDecoratedTask.task_.execute = .ok [exBatch1, exBatch2]
    ∧ (exDecoratedTask.Execute).trace.count ExecEvent.assumeCall = 1
    ∧ (exDecoratedTask.Execute).trace.take 3
        = [ExecEvent.innerExecute, ExecEvent.assumeCall, ExecEvent.buildFilterStage]
    ∧ (exDecoratedTask.Execute).trace.getLast? = some ExecEvent.buildProjectStage
    ∧ (exDecoratedTask.Execute).state.filter_
        = some (exDecoratedTask.options_.filter.Assume exDecoratedTask.partition_)
    ∧ ∃ proj, (exDecoratedTask.Execute).result
        = .ok (ProjectRecordBatch proj
            (FilterRecordBatch
              (exDecoratedTask.options_.filter.Assume exDecoratedTask.partition_)
              [exBatch1, exBatch2])).1 := by
  have hmain := execute_specializes_once_and_filters_before_project
    exDecoratedTask [exBatch1, exBatch2] (by decide)
  exact ⟨by decide, hmain.1, hmain.2.1, hmain.2.2.1, hmain.2.2.2.1, hmain.2.2.2.2⟩

/-- C7: when the fragment has no partition predicate, `Execute` behaves
as if specialization were the identity — the predicate the filter stage
uses is the global filter unchanged — and the default-value-injection
step is skipped entirely, leaving the task's projector defaults
untouched. -/
theorem absent_partition_means_identity_specialization_and_no_defaults
    (t : FilterAndProjectScanTask) (raw : List RecordBatch)
    (hp : t.partition_ = none) (h : t.task_.execute = .ok raw) :
    (t.Execute).state.filter_ = some t.options_.filter
    ∧ (t.Execute).state.projector_ = t.projector_
    ∧ ExecEvent.setDefaults ∉ (t.Execute).trace
    ∧ (t.Execute).result
        = .ok (ProjectRecordBatch t.projector_
            (FilterRecordBatch t.options_.filter raw)).1 := by
  refine ⟨?_, ?_, ?_, ?_⟩ <;>
    simp [FilterAndProjectScanTask.Execute, h, hp, Expression.Assume, ProjectRecordBatch_ptr]

/-- C7 witness. -/
theorem absent_partition_means_identity_specialization_and_no_defaults_witness :
    exDecoratedTaskNoPartition.partition_ = none
    ∧ exDecoratedTaskNoPartition.task_.execute = .ok [exBatch1, exBatch2]
    ∧ (exDecoratedTaskNoPartition.Execute).state.filter_
        = some exDecoratedTaskNoPartition.options_.filter
    ∧ (exDecoratedTaskNoPartition.Execute).state.projector_
        = exDecoratedTaskNoPartition.projector_
    ∧ ExecEvent.setDefaults ∉ (exDecoratedTaskNoPartition.Execute).trace
    ∧ (exDecoratedTaskNoPartition.Execute).result
        = .ok (ProjectRecordBatch exDecoratedTaskNoPartition.projector_
            (FilterRecordBatch exDecoratedTaskNoPartition.options_.filter
              [exBatch1, exBatch2])).1 := by
  have hmain := absent_partition_means_identity_specialization_and_no_defaults
    exDecoratedTaskNoPartition [exBatch1, exBatch2] (by decide) (by decide)
  exact ⟨by decide, by decide, hmain.1, hmain.2.1, hmain.2.2.1, hmain.2.2.2⟩

theorem lookupCol_map_self (cols : List String) (g : String → Value) (c : String)
    (hc : c ∈ cols) : lookupCol (cols.map (fun d => (d, g d))) c = some (g c) := by
  induction cols with
  | nil => cases hc
  | cons d ds ih =>
    by_cases hd : d = c
    · subst hd
      simp [lookupCol, List.find?_cons]
    · have hcd : c ∈ ds := by
        rcases List.mem_cons.mp hc with h1 | h2
        · exact absurd h1.symm hd
        · exact h2
      simp only [List.map_cons, lookupCol, List.find?_cons]
      rw [show (decide ((d, g d).1 = c)) = false by simp [hd]]
      exact ih hcd

theorem lookupCol_projectRow (p : RecordBatchProjector) (schema : List String) (r : Row)
    (c : String) (hc : c ∈ p.toSchema) (hmiss : ¬ c ∈ schema) :
    lookupCol (p.projectRow schema r) c
      = some ((lookupCol p.defaults c).getD Value.nullV) := by
  unfold RecordBatchProjector.projectRow
  rw [lookupCol_map_self p.toSchema _ c hc]
  rw [show schema.contains c = false by simpa using hmiss]
  simp

theorem lookupCol_map_override (d : List (String × Value)) (c : String) (v : Value)
    (hany : d.any (fun kv => kv.1 = c) = true) :
    lookupCol (d.map (fun kv => if kv.1 = c then (c, v) else kv)) c = some v := by
  induction d with
  | nil => cases hany
  | cons kv ds ih =>
    by_cases h1 : kv.1 = c
    · simp [lookupCol, List.find?_cons, h1]
    · have htail : ds.any (fun kv => kv.1 = c) = true := by
        rcases List.any_eq_true.mp hany with ⟨x, hx, hpx⟩
        rcases List.mem_cons.mp hx with rfl | hxs
        · exact absurd (of_decide_eq_true hpx) h1
        · exact List.any_eq_true.mpr ⟨x, hxs, hpx⟩
      simp only [List.map_cons, if_neg h1, lookupCol, List.find?_cons]
      rw [show (decide (kv.1 = c)) = false by simp [h1]]
      exact ih htail

theorem lookupCol_setDefault (d : List (String × Value)) (c : String) (v : Value) :
    lookupCol (setDefault d c v) c = some v := by
  unfold setDefault
  by_cases hany : d.any (fun kv => kv.1 = c) = true
  · rw [if_pos hany]
    exact lookupCol_map_override d c v hany
  · rw [if_neg hany]
    have hnone : d.find? (fun kv => decide (kv.1 = c)) = none := by
      rw [List.find?_eq_none]
      intro x hx hpx
      exact hany (List.any_eq_true.mpr ⟨x, hx, hpx⟩)
    unfold lookupCol
    rw [List.find?_append, hnone]
    simp [List.find?_cons]

/-- C6: with a partition predicate present, `Execute` updates the task's
private projector's defaults from the partition's key/value binding
before building the projection stage, so a task whose raw batches lack
the partition column yields projected batches in which every row's value
for that column is the partition-derived constant. -/
theorem partition_defaults_injected_before_projection
    (t : FilterAndProjectScanTask) (c : String) (v : Value) (raw : List RecordBatch)
    (hp : t.partition_ = some (Expression.eqCol c v))
    (h : t.task_.execute = .ok raw)
    (hsch : c ∈ t.projector_.toSchema)
    (hmiss : ∀ b ∈ raw, ¬ c ∈ b.schema) :
    (t.Execute).state.projector_.defaults = setDefault t.projector_.defaults c v
    ∧ (t.Execute).trace
        = [ExecEvent.innerExecute, ExecEvent.assumeCall, ExecEvent.buildFilterStage,
           ExecEvent.setDefaults, ExecEvent.buildProjectStage]
    ∧ ∃ outs, (t.Execute).result = .ok outs
        ∧ ∀ o ∈ outs, ∀ bOut, o = .ok bOut →
            ∀ r ∈ bOut.rows, lookupCol r c = some v := by
  have hres : (t.Execute).result
      = .ok (projectEachFresh
          (KeyValuePartitioning.SetDefaultValuesFromKeys (Expression.eqCol c v) t.projector_)
          (FilterRecordBatch (t.options_.filter.Assume (some (Expression.eqCol c v))) raw)) := by
    simp [FilterAndProjectScanTask.Execute, h, hp, ProjectRecordBatch_outs]
  refine ⟨?_, ?_, ?_⟩
  · simp [FilterAndProjectScanTask.Execute, h, hp, ProjectRecordBatch_ptr,
      KeyValuePartitioning.SetDefaultValuesFromKeys, Expression.bindings]
  · simp [FilterAndProjectScanTask.Execute, h, hp]
  · refine ⟨_, hres, ?_⟩
    intro o ho bOut hob r hr
    rcases projectEachFresh_ok_mem _ _ o bOut ho hob with ⟨bIn, hbIn, rfl⟩
    rcases List.mem_map.mp (by simpa [RecordBatchProjector.Project] using hr)
      with ⟨r0, _hr0, rfl⟩
    have hcs : ¬ c ∈ bIn.schema := by
      rcases FilterRecordBatch_ok_schema _ raw _ bIn hbIn rfl with ⟨b0, hb0, hss⟩
      rw [hss]; exact hmiss b0 hb0
    have hsch2 : c ∈ (KeyValuePartitioning.SetDefaultValuesFromKeys
        (Expression.eqCol c v) t.projector_).toSchema := by
      simpa [KeyValuePartitioning.SetDefaultValuesFromKeys] using hsch
    rw [lookupCol_projectRow _ bIn.schema r0 c hsch2 hcs]
    have hdef : (KeyValuePartitioning.SetDefaultValuesFromKeys
        (Expression.eqCol c v) t.projector_).defaults
          = setDefault t.projector_.defaults c v := by
      simp [KeyValuePartitioning.SetDefaultValuesFromKeys, Expression.bindings]
    rw [hdef, lookupCol_setDefault]
    rfl

/-- C6 witness. -/
theorem partition_defaults_injected_before_projection_witness :
    exDecoratedTask.partition_ = some (Expression.eqCol "region" (Value.strV "west"))
    ∧ exDecoratedTask.task_.execute = .ok [exBatch1, exBatch2]
    ∧ "region" ∈ exDecoratedTask.projector_.toSchema
    ∧ (∀ b ∈ [exBatch1, exBatch2], ¬ "region" ∈ b.schema)
    ∧ (exDecoratedTask.Execute).state.projector_.defaults
        = setDefault exDecoratedTask.projector_.defaults "region" (Value.strV "west")
    ∧ ∃ outs, (exDecoratedTask.Execute).result = .ok outs
        ∧ ∀ o ∈ outs, ∀ bOut, o = .ok bOut →
            ∀ r ∈ bOut.rows, lookupCol r "region" = some (Value.strV "west") := by
  have hmain := partition_defaults_injected_before_projection
    exDecoratedTask "region" (Value.strV "west") [exBatch1, exBatch2]
    (by decide) (by decide) (by decide) (by decide)
  exact ⟨by decide, by decide, by decide, by decide, hmain.1, hmain.2.2⟩

theorem wrapScanTasks_eq (p : Option Expression) (ts : List ScanTask) :
    wrapScanTasks p ts = (ts.map (fun t => FilterAndProjectScanTask.make t p), p) := by
  induction ts with
  | nil => rfl
  | cons t rest ih => simp [wrapScanTasks, sharedMoveFromConst, ih]

theorem flattenRun_cons_inner (A : Type) (t : A) (ts : List A)
    (outer : List (Except String (List A))) :
    flattenRun A (t :: ts) outer = .ok t :: flattenRun A ts outer := by
  rw [flattenRun]

theorem flattenRun_split (A : Type) (inner : List A) (outer : List (Except String (List A))) :
    flattenRun A inner outer = inner.map Except.ok ++ flattenRun A [] outer := by
  induction inner with
  | nil => simp
  | cons t ts ih => rw [flattenRun_cons_inner, ih]; simp

theorem flattenRun_nil_eq_denote (A : Type) (outer : List (Except String (List A))) :
    flattenRun A [] outer = flattenDenote A outer := by
  induction outer with
  | nil => simp [flattenRun, flattenDenote]
  | cons x rest ih =>
    cases x with
    | error e => rw [flattenRun, ih]; simp [flattenDenote]
    | ok ts => rw [flattenRun, flattenRun_split, ih]; simp [flattenDenote]

theorem flattenDenote_append (A : Type) (xs ys : List (Except String (List A))) :
    flattenDenote A (xs ++ ys) = flattenDenote A xs ++ flattenDenote A ys := by
  simp [flattenDenote]

theorem GetScanTaskIterator_denote (fragments : List Fragment) (options : ScanOptions)
    (context : ScanContext) :
    GetScanTaskIterator fragments options context
      = flattenDenote FilterAndProjectScanTask
          (fragments.map (fragmentScanTasks options context)) := by
  unfold GetScanTaskIterator
  exact flattenRun_nil_eq_denote _ _

theorem fragmentScanTasks_ok (f : Fragment) (o : ScanOptions) (c : ScanContext)
    (ts : List ScanTask) (h : f.Scan o c = .ok ts) :
    fragmentScanTasks o c f
      = .ok (ts.map (fun t => FilterAndProjectScanTask.make t f.partition_expression)) := by
  unfold fragmentScanTasks
  rw [h]
  simp [wrapTasks, wrapScanTasks_eq]

theorem fragmentScanTasks_error (f : Fragment) (o : ScanOptions) (c : ScanContext)
    (e : String) (h : f.Scan o c = .error e) :
    fragmentScanTasks o c f = .error e := by
  unfold fragmentScanTasks
  rw [h]

/-- C4: the materializer yields decorated tasks in fragment order with
task order within each fragment preserved; with fragments `[F1, F2]`
whose scans yield 2 and 3 raw tasks, it yields exactly 5 decorated tasks,
all of F1's (in order) before all of F2's (in order). -/
theorem scan_task_iterator_preserves_fragment_and_task_order
    (f1 f2 : Fragment) (o : ScanOptions) (c : ScanContext) (ts1 ts2 : List ScanTask)
    (h1 : f1.Scan o c = .ok ts1) (h2 : f2.Scan o c = .ok ts2)
    (hl1 : ts1.length = 2) (hl2 : ts2.length = 3) :
    GetScanTaskIterator [f1, f2] o c
      = ts1.map (fun t => .ok (FilterAndProjectScanTask.make t f1.partition_expression))
        ++ ts2.map (fun t => .ok (FilterAndProjectScanTask.make t f2.partition_expression))
    ∧ (GetScanTaskIterator [f1, f2] o c).length = 5 := by
  have heq : GetScanTaskIterator [f1, f2] o c
      = ts1.map (fun t => .ok (FilterAndProjectScanTask.make t f1.partition_expression))
        ++ ts2.map (fun t => .ok (FilterAndProjectScanTask.make t f2.partition_expression)) := by
    rw [GetScanTaskIterator_denote]
    simp only [List.map_cons, List.map_nil,
      fragmentScanTasks_ok f1 o c ts1 h1, fragmentScanTasks_ok f2 o c ts2 h2]
    simp [flattenDenote, List.map_map, Function.comp_def]
  refine ⟨heq, ?_⟩
  rw [heq]
  simp [hl1, hl2]

/-- C4 witness. -/
theorem scan_task_iterator_preserves_fragment_and_task_order_witness :
    exOkFragment3.Scan exOptions exContext = .ok [exInnerTask, exInnerTask]
    ∧ exOkFragment2.Scan exOptions exContext = .ok [exInnerTask, exInnerTask, exInnerTask]
    ∧ GetScanTaskIterator [exOkFragment3, exOkFragment2] exOptions exContext
        = [exInnerTask, exInnerTask].map
            (fun t => .ok (FilterAndProjectScanTask.make t exOkFragment3.partition_expression))
          ++ [exInnerTask, exInnerTask, exInnerTask].map
            (fun t => .ok (FilterAndProjectScanTask.make t exOkFragment2.partition_expression))
    ∧ (GetScanTaskIterator [exOkFragment3, exOkFragment2] exOptions exContext).length = 5 := by
  have hmain := scan_task_iterator_preserves_fragment_and_task_order
    exOkFragment3 exOkFragment2 exOptions exContext
    [exInnerTask, exInnerTask] [exInnerTask, exInnerTask, exInnerTask]
    (by decide) (by decide) (by decide) (by decide)
  exact ⟨by decide, by decide, hmain.1, hmain.2⟩

/-- C5: a fragment whose scan call fails contributes exactly one error
element to the flattened sequence, after the contributions of the
fragments before it, and the flattened sequence then continues with the
later fragments' decorated tasks — in particular a later fragment whose
scan succeeds still contributes all its tasks. -/
theorem fragment_scan_failure_yields_single_error_and_continues
    (fs1 fs2 fs3 : List Fragment) (f g : Fragment) (o : ScanOptions) (c : ScanContext)
    (e : String) (ts : List ScanTask)
    (hf : f.Scan o c = .error e) (hg : g.Scan o c = .ok ts) :
    GetScanTaskIterator (fs1 ++ f :: (fs2 ++ g :: fs3)) o c
      = flattenDenote FilterAndProjectScanTask (fs1.map (fragmentScanTasks o c))
        ++ .error e
          :: (flattenDenote FilterAndProjectScanTask (fs2.map (fragmentScanTasks o c))
              ++ ts.map (fun t => .ok (FilterAndProjectScanTask.make t g.partition_expression))
              ++ flattenDenote FilterAndProjectScanTask (fs3.map (fragmentScanTasks o c))) := by
  rw [GetScanTaskIterator_denote]
  rw [List.map_append, flattenDenote_append, List.map_cons]
  rw [fragmentScanTasks_error f o c e hf]
  rw [List.map_append, List.map_cons, fragmentScanTasks_ok g o c ts hg]
  simp [flattenDenote, List.map_map, Function.comp_def]

/-- C5 witness. -/
theorem fragment_scan_failure_yields_single_error_and_continues_witness :
    exFailFragment.Scan exOptions exContext = .error "io error"
    ∧ exOkFragment.Scan exOptions exContext = .ok [exInnerTask]
    ∧ GetScanTaskIterator ([] ++ exFailFragment :: ([] ++ exOkFragment :: [])) exOptions exContext
        = flattenDenote FilterAndProjectScanTask
            (([] : List Fragment).map (fragmentScanTasks exOptions exContext))
          ++ .error "io error"
            :: (flattenDenote FilterAndProjectScanTask
                  (([] : List Fragment).map (fragmentScanTasks exOptions exContext))
                ++ [exInnerTask].map
                  (fun t => .ok (FilterAndProjectScanTask.make t exOkFragment.partition_expression))
                ++ flattenDenote FilterAndProjectScanTask
                  (([] : List Fragment).map (fragmentScanTasks exOptions exContext))) := by
  have hmain := fragment_scan_failure_yields_single_error_and_continues
    [] [] [] exFailFragment exOkFragment exOptions exContext "io error" [exInnerTask]
    (by decide) (by decide)
  exact ⟨by decide, by decide, hmain⟩

/-- C10: for a fragment yielding two or more raw scan tasks, every
decorated task — the second and later ones included — carries the
fragment's partition predicate: the wrapping closure's captured partition
is copied, not consumed, by each invocation, so the captured state after
all invocations is still the partition predicate. -/
theorem wrapped_tasks_all_carry_partition (p : Option Expression) (ts : List ScanTask)
    (_hlen : 2 ≤ ts.length) :
    (∀ d ∈ wrapTasks p ts, d.partition_ = p) ∧ (wrapScanTasks p ts).2 = p := by
  constructor
  · intro d hd
    rw [wrapTasks, wrapScanTasks_eq] at hd
    rcases List.mem_map.mp hd with ⟨t, _ht, rfl⟩
    rfl
  · rw [wrapScanTasks_eq]

/-- C10 witness. -/
theorem wrapped_tasks_all_carry_partition_witness :
    2 ≤ ([exInnerTask, exInnerTask] : List ScanTask).length
    ∧ ((∀ d ∈ wrapTasks (some exWestPartition) [exInnerTask, exInnerTask],
          d.partition_ = some exWestPartition)
        ∧ (wrapScanTasks (some exWestPartition) [exInnerTask, exInnerTask]).2
            = some exWestPartition) :=
  ⟨by decide,
   wrapped_tasks_all_carry_partition (some exWestPartition)
     [exInnerTask, exInnerTask] (by decide)⟩

end ArrowDataset
